import Mathlib

/-
  Shallow embedding of the gh-stats repository (src/stats.py and src/gen.py).

  Machine integers in the Python source are unbounded (Python ints), so Nat
  models the counters exactly.  Fallible Python code (dictionary/attribute
  access on None, division by zero, assert failures) is modelled with an
  explicit error type; the unbounded `while True` pagination loop is modelled
  by running it against a finite list of responses, with a `diverges` outcome
  when the list is exhausted before the loop breaks.
-/

namespace GHStats

/-- Python runtime exceptions the translated code can raise. -/
inductive PyErr where
  | attributeError
  | typeError
  | zeroDivisionError
  | assertionError
  deriving DecidableEq, Repr

/-- Outcome of running translated code: the pagination loop may never break
(diverges), an exception may propagate (raises), or a value is returned. -/
inductive Res (α : Type) where
  | diverges
  | raises (e : PyErr)
  | ok (a : α)
  deriving DecidableEq, Repr

/-- One edge of `repo["languages"]["edges"]` in an overview response.
`size` models `lang.get("size", 0)` with the default already applied;
`name`/`color` model `lang.get("node", \x7b\x7d).get("name"/"color")`,
where `none` stands for a missing node or field. -/
structure LangEdge where
  size : Nat
  name : Option String
  color : Option String
  deriving DecidableEq, Repr

/-- One repository node of an overview response.  `stargazers = none` models a
node whose "stargazers" key is absent or null, on which
`repo.get("stargazers").get("totalCount", 0)` raises AttributeError;
`some n` models a present stargazers object with total count `n` (the
`.get("totalCount", 0)` default already applied).  `forkCount` and
`languages` have their `.get(key, default)` defaults folded in. -/
structure RepoNode where
  nameWithOwner : Option String
  stargazers : Option Nat
  forkCount : Nat
  languages : List LangEdge
  deriving DecidableEq, Repr

/-- `pageInfo` of a paginated collection.  `hasNextPage = none` models an
absent/null field (read with default False).  For `endCursor`, `none` models
the key being absent (so `.get("endCursor", prev)` keeps the previous
cursor) and `some v` a present key whose value is `v` (possibly null). -/
structure PageInfo where
  hasNextPage : Option Bool
  endCursor : Option (Option String)
  deriving DecidableEq, Repr

/-- A paginated repository collection: `.get("pageInfo", \x7b\x7d)` and
`.get("nodes", [])` are modelled by the `Option`/list defaults below.
Null entries in `nodes` are `none`. -/
structure RepoCollection where
  pageInfo : Option PageInfo
  nodes : List (Option RepoNode)
  deriving DecidableEq, Repr

/-- The `viewer` object of an overview response; every field may be absent. -/
structure Viewer where
  login : Option String
  name : Option String
  createdAt : Option String
  followers : Option Nat
  following : Option Nat
  sponsoring : Option Nat
  starredRepositories : Option Nat
  repositories : Option RepoCollection
  repositoriesContributedTo : Option RepoCollection
  deriving DecidableEq, Repr

/-- A GraphQL overview response.  `none` models `query_graphql` returning an
empty dict (transport failure) or a response missing "data"/"viewer": all
field reads then fall back to their defaults. -/
abbrev OverviewResp := Option Viewer

/-- The `Options` dataclass of stats.py.  The excluded sets default to None in
the source; membership tests on a None set raise TypeError. -/
structure Options where
  excluded_repos : Option (List String) := none
  excluded_langs : Option (List String) := none
  exclude_forked_repos : Bool := false
  exclude_private_repos : Bool := false
  deriving DecidableEq, Repr

/-- The per-language record stored in `self._languages`: byte size,
occurrence count, display color, and the "prop" percentage key that is only
inserted by the final pass of `get()` (absent before that, hence `Option`). -/
structure LangInfo where
  size : Nat
  occurrences : Nat
  color : Option String
  prop : Option ℚ := none
  deriving DecidableEq, Repr

/-- `self._languages`: a Python dict modelled as an insertion-ordered
association list with (automatically) distinct keys. -/
abbrev LangMap := List (String × LangInfo)

/-- The mutable statistic fields of a `Stats` object, each `None` until
computed (the `self._foo` attributes set in `__init__`). -/
structure StatsFields where
  name : Option String := none
  joined : Option String := none
  followers : Option Nat := none
  following : Option Nat := none
  sponsoring : Option Nat := none
  starredRepositories : Option Nat := none
  stargazers : Option Nat := none
  forks : Option Nat := none
  totalContributions : Option Nat := none
  languages : Option LangMap := none
  repositories : Option (List (Option String)) := none
  linesChanged : Option (Nat × Nat) := none
  deriving DecidableEq, Repr

/-- A fresh `Stats` object: every field starts unset. -/
def initStats : StatsFields := {}

/-- Update the value stored under key `k` of a dict, keeping its position
(Python dict assignment on an existing key). -/
def updateEntry : LangMap → String → (LangInfo → LangInfo) → LangMap
  | [], _, _ => []
  | (a, b) :: t, k, f => (if a = k then (a, f b) else (a, b)) :: updateEntry t k f

/-- Python `str.lower()`, character by character. -/
def strLower (s : String) : String := ⟨s.data.map Char.toLower⟩

/-- Python `str.strip()`: remove whitespace from both ends. -/
def pyStrip (s : String) : String :=
  ⟨((s.data.dropWhile Char.isWhitespace).reverse.dropWhile Char.isWhitespace).reverse⟩

/-- The body of the `for lang in repo.get("languages", \x7b\x7d).get("edges", [])`
loop of `Stats.get` (stats.py lines 329-342), given an already-materialised
excluded-language list: resolve the language name (default "Other"), skip it
if its lowercase form is among the lowercased excluded names, otherwise
increment an existing entry's size and occurrence count or append a fresh
entry carrying the edge's color. -/
def processLangEdge (excluded_langs : List String) (m : LangMap) (e : LangEdge) : LangMap :=
  let name := e.name.getD "Other"
  if (excluded_langs.map strLower).contains (strLower name) then m
  else
    match m.lookup name with
    | some _ =>
        updateEntry m name
          (fun v => { v with size := v.size + e.size, occurrences := v.occurrences + 1 })
    | none => m ++ [(name, { size := e.size, occurrences := 1, color := e.color, prop := none })]

/-- Python membership `name in excluded_set` for an optional repository name:
None compares equal to no string, and strings compare exactly
(case-sensitively). -/
def excludedRepo (ex : List String) : Option String → Bool
  | some n => ex.contains n
  | none => false

/-- The body of the `for repo in repos` loop of `Stats.get` (stats.py lines
319-342).  Null nodes are skipped; a node whose name is already in the seen
set, or is in the excluded-repository set (exact string comparison), is
skipped before any counter is touched; otherwise the name is recorded and
stargazer/fork counts accumulated, then the language edges are folded in.
A None excluded-repository set makes the membership test raise TypeError
(only reached when the name is not already seen, because Python's `or`
short-circuits); a None excluded-language set raises TypeError when the
first language edge evaluates the lowered-set comprehension; a missing
stargazers object raises AttributeError. -/
def processRepo (opts : Options) (st : StatsFields) : Option RepoNode → Except PyErr StatsFields
  | none => .ok st
  | some repo =>
    let name := repo.nameWithOwner
    let seen := st.repositories.getD []
    if name ∈ seen then .ok st
    else
      match opts.excluded_repos with
      | none => .error .typeError
      | some ex =>
        if excludedRepo ex name then .ok st
        else
          match repo.stargazers with
          | none => .error .attributeError
          | some sg =>
            match opts.excluded_langs with
            | none =>
              if repo.languages = [] then
                .ok { st with
                  repositories := some (seen ++ [name]),
                  stargazers := some (st.stargazers.getD 0 + sg),
                  forks := some (st.forks.getD 0 + repo.forkCount) }
              else .error .typeError
            | some el =>
              .ok { st with
                repositories := some (seen ++ [name]),
                stargazers := some (st.stargazers.getD 0 + sg),
                forks := some (st.forks.getD 0 + repo.forkCount),
                languages := some (repo.languages.foldl (processLangEdge el) (st.languages.getD [])) }

/-- The whole `for repo in repos` loop over one page's working repository
list, propagating a raised exception. -/
def processRepos (opts : Options) : StatsFields → List (Option RepoNode) → Except PyErr StatsFields
  | st, [] => .ok st
  | st, r :: rs =>
    match processRepo opts st r with
    | .error e => .error e
    | .ok st' => processRepos opts st' rs

/-- An absent repository collection (`.get(key, \x7b\x7d)` default). -/
def emptyColl : RepoCollection := ⟨none, []⟩

/-- An absent viewer (all chained `.get` defaults). -/
def emptyViewer : Viewer := ⟨none, none, none, none, none, none, none, none, none⟩

/-- `raw_results.get("data", \x7b\x7d).get("viewer", \x7b\x7d).get("repositories", \x7b\x7d)`. -/
def ownedColl (r : OverviewResp) : RepoCollection :=
  ((r.getD emptyViewer).repositories).getD emptyColl

/-- Same for `repositoriesContributedTo`. -/
def contribColl (r : OverviewResp) : RepoCollection :=
  ((r.getD emptyViewer).repositoriesContributedTo).getD emptyColl

/-- `collection.get("pageInfo", \x7b\x7d).get("hasNextPage", False)`. -/
def RepoCollection.hasNext (c : RepoCollection) : Bool :=
  match c.pageInfo with
  | none => false
  | some pi => pi.hasNextPage.getD false

/-- `collection.get("pageInfo", \x7b\x7d).get("endCursor", prev)`: a missing
pageInfo or a pageInfo without an endCursor key keeps the previous cursor;
a present endCursor key overwrites it with its (possibly null) value. -/
def updCursor (c : RepoCollection) (prev : Option String) : Option String :=
  match c.pageInfo with
  | none => prev
  | some pi =>
    match pi.endCursor with
    | none => prev
    | some v => v

/-- stats.py lines 315-317: the working repository list of one page is the
owned nodes, plus the contributed-to nodes only when `exclude_forked_repos`
is false. -/
def workingRepos (opts : Options) (owned contrib : RepoCollection) : List (Option RepoNode) :=
  owned.nodes ++ (if opts.exclude_forked_repos then [] else contrib.nodes)

/-- stats.py lines 267-304: each loop iteration overwrites the scalar profile
fields from the current response (name falls back to login then "No Name";
the join date is only overwritten when createdAt is present; the four counts
default to 0). -/
def setScalars (v : Viewer) (st : StatsFields) : StatsFields :=
  { st with
    name := some (match v.name with | some n => n | none => v.login.getD "No Name"),
    joined := (match v.createdAt with | some c => some c | none => st.joined),
    followers := some (v.followers.getD 0),
    following := some (v.following.getD 0),
    sponsoring := some (v.sponsoring.getD 0),
    starredRepositories := some (v.starredRepositories.getD 0) }

/-- The loop-carried state of `get()`: the object's fields plus the two
pagination cursors `next_owned` / `next_contrib`. -/
structure GetState where
  fields : StatsFields
  nextOwned : Option String := none
  nextContrib : Option String := none
  deriving DecidableEq, Repr

/-- One iteration of the `while True` loop of `Stats.get` (stats.py lines
255-354) applied to the response of this iteration's overview query: set the
scalar fields, fold the working repository list into the totals, then either
advance both cursors independently and continue (`true`) when either
collection reports a next page, or break (`false`). -/
def getStep (opts : Options) (st : GetState) (r : OverviewResp) : Except PyErr (GetState × Bool) :=
  let v := r.getD emptyViewer
  let fields := setScalars v st.fields
  let owned := ownedColl r
  let contrib := contribColl r
  match processRepos opts fields (workingRepos opts owned contrib) with
  | .error e => .error e
  | .ok fields' =>
    if owned.hasNext || contrib.hasNext then
      .ok (⟨fields', updCursor owned st.nextOwned, updCursor contrib st.nextContrib⟩, true)
    else
      .ok ({ st with fields := fields' }, false)

/-- The `while True` pagination loop, run against the successive responses of
the overview queries.  Exhausting the response list before the loop breaks
models the loop never terminating. -/
def getLoop (opts : Options) : GetState → List OverviewResp → Res GetState
  | _, [] => .diverges
  | st, r :: rs =>
    match getStep opts st r with
    | .error e => .raises e
    | .ok (st', true) => getLoop opts st' rs
    | .ok (st', false) => .ok st'

/-- `langs_total = sum([v.get("size", 0) for v in self._languages.values()])`. -/
def langsTotal (m : LangMap) : Nat := (m.map (fun kv => kv.2.size)).sum

/-- stats.py lines 356-358: the final pass over the language map sets each
entry's "prop" key to `100 * (size / langs_total)`.  Python raises
ZeroDivisionError on the first entry when the map is nonempty with total
size 0; with an empty map the loop body never runs. -/
def computeProps (m : LangMap) : Except PyErr LangMap :=
  if m = [] then .ok m
  else if langsTotal m = 0 then .error .zeroDivisionError
  else .ok (m.map (fun kv =>
    (kv.1, { kv.2 with prop := some (100 * ((kv.2.size : ℚ) / (langsTotal m : ℚ))) })))

/-- `Stats.get` (stats.py lines 243-358): reset the running totals, run the
pagination loop, then compute the language percentages. -/
def statsGet (opts : Options) (st0 : StatsFields) (responses : List OverviewResp) :
    Res StatsFields :=
  let st : StatsFields :=
    { st0 with
      stargazers := some 0,
      forks := some 0,
      languages := some [],
      repositories := some [] }
  match getLoop opts ⟨st, none, none⟩ responses with
  | .diverges => .diverges
  | .raises e => .raises e
  | .ok g =>
    match computeProps (g.fields.languages.getD []) with
    | .error e => .raises e
    | .ok m => .ok { g.fields with languages := some m }

/-- One week object of a contributor-statistics entry, with the
`week.get("a", 0)` / `week.get("d", 0)` defaults folded in. -/
structure WeekObj where
  a : Nat
  d : Nat
  deriving DecidableEq, Repr

/-- One element of a `/repos/.../stats/contributors` payload.  `junk` models
an element that is not a dict, or whose "author" value is not a dict: the
isinstance guard skips it.  `entry` carries the author's login
(`author_obj.get("author", \x7b\x7d).get("login", "")`, default applied) and
the weeks list (`.get("weeks", [])`). -/
inductive AuthorObj where
  | junk
  | entry (login : String) (weeks : List WeekObj)
  deriving DecidableEq, Repr

/-- What one attempt of `GitHubAPI.query_rest` observes: an HTTP 202
"still processing" response, a transport error (aiohttp.ClientError), a
non-202 response whose parsed body is None, or a non-202 response with a
parsed payload. -/
inductive RestResp where
  | status202
  | transportError
  | jsonNull
  | payload (body : List AuthorObj)
  deriving DecidableEq, Repr

/-- Observable outcome of `GitHubAPI.query_rest`: the returned value
(`none` models the final `return dict()` fallback), how many attempts were
made, the total time-units slept, and whether the partial-data warning was
printed. -/
structure RestResult where
  result : Option (List AuthorObj)
  attempts : Nat
  sleepUnits : Nat
  warned : Bool
  deriving DecidableEq, Repr

/-- The `for _ in range(60)` body of `query_rest` (stats.py lines 44-64):
`fuel` counts remaining iterations, `i` the attempts already made and `slp`
the time-units already slept.  A 202 or a transport error sleeps 2 units and
retries; a null body retries at once; a payload is returned immediately. -/
def queryRestAux (oracle : Nat → RestResp) : Nat → Nat → Nat → RestResult
  | 0, i, slp => ⟨none, i, slp, true⟩
  | fuel + 1, i, slp =>
    match oracle i with
    | .status202 => queryRestAux oracle fuel (i + 1) (slp + 2)
    | .transportError => queryRestAux oracle fuel (i + 1) (slp + 2)
    | .jsonNull => queryRestAux oracle fuel (i + 1) slp
    | .payload b => ⟨some b, i + 1, slp, false⟩

/-- `GitHubAPI.query_rest` (stats.py lines 43-67), run against an oracle
giving the response of each successive attempt: at most 60 attempts, then
the empty-dict fallback with a logged warning. -/
def queryRest (oracle : Nat → RestResp) : RestResult :=
  queryRestAux oracle 60 0 0

/-- The environment a `Stats` object runs against: the successive overview
responses, the per-year contribution totals of the combined
all-contributions response (each with the
`.get("contributionCalendar", \x7b\x7d).get("totalContributions", 0)`
defaults applied; the empty list models a failed call), and a REST oracle
giving, per repository name and attempt index, the response. -/
structure Env where
  overview : List OverviewResp
  contribByYear : List Nat
  rest : Option String → Nat → RestResp

/-- A constructed `Stats` object minus its mutable fields: username, options
and the API environment. -/
structure StatsCtx where
  username : String
  opts : Options
  env : Env

/-- The common shape of the nine `get()`-backed async properties of `Stats`
(stats.py lines 360-490): return the cached field if set; otherwise run
`get()`, assert the field is now set, and return it.  The Bool of the result
records whether a fetch was triggered. -/
def lazyGetAcc {α : Type} (read : StatsFields → Option α) (c : StatsCtx) (st : StatsFields) :
    Res (α × StatsFields × Bool) :=
  match read st with
  | some v => .ok (v, st, false)
  | none =>
    match statsGet c.opts st c.env.overview with
    | .diverges => .diverges
    | .raises e => .raises e
    | .ok st' =>
      match read st' with
      | none => .raises .assertionError
      | some v => .ok (v, st', true)

/-- `Stats.name` (stats.py lines 360-370). -/
def Stats.name : StatsCtx → StatsFields → Res (String × StatsFields × Bool) :=
  lazyGetAcc StatsFields.name

/-- `Stats.joined` (stats.py lines 372-382); the datetime is modelled by the
raw createdAt string it is parsed from. -/
def Stats.joined : StatsCtx → StatsFields → Res (String × StatsFields × Bool) :=
  lazyGetAcc StatsFields.joined

/-- `Stats.followers` (stats.py lines 384-394). -/
def Stats.followers : StatsCtx → StatsFields → Res (Nat × StatsFields × Bool) :=
  lazyGetAcc StatsFields.followers

/-- `Stats.following` (stats.py lines 396-406). -/
def Stats.following : StatsCtx → StatsFields → Res (Nat × StatsFields × Bool) :=
  lazyGetAcc StatsFields.following

/-- `Stats.sponsoring` (stats.py lines 408-418). -/
def Stats.sponsoring : StatsCtx → StatsFields → Res (Nat × StatsFields × Bool) :=
  lazyGetAcc StatsFields.sponsoring

/-- `Stats.starred_repositories` (stats.py lines 420-430). -/
def Stats.starred_repositories : StatsCtx → StatsFields → Res (Nat × StatsFields × Bool) :=
  lazyGetAcc StatsFields.starredRepositories

/-- `Stats.stargazers` (stats.py lines 432-442). -/
def Stats.stargazers : StatsCtx → StatsFields → Res (Nat × StatsFields × Bool) :=
  lazyGetAcc StatsFields.stargazers

/-- `Stats.forks` (stats.py lines 444-454). -/
def Stats.forks : StatsCtx → StatsFields → Res (Nat × StatsFields × Bool) :=
  lazyGetAcc StatsFields.forks

/-- `Stats.languages` (stats.py lines 456-466). -/
def Stats.languages : StatsCtx → StatsFields → Res (LangMap × StatsFields × Bool) :=
  lazyGetAcc StatsFields.languages

/-- `Stats.repositories` (stats.py lines 480-490). -/
def Stats.repositories :
    StatsCtx → StatsFields → Res (List (Option String) × StatsFields × Bool) :=
  lazyGetAcc StatsFields.repositories

/-- `Stats.total_contributions` (stats.py lines 492-519): cached if set;
otherwise its own two GraphQL fetches, summing the per-year totals (all
`.get` defaults make this total even for empty/failed responses). -/
def Stats.total_contributions (c : StatsCtx) (st : StatsFields) :
    Res (Nat × StatsFields × Bool) :=
  match st.totalContributions with
  | some v => .ok (v, st, false)
  | none =>
    let tc := c.env.contribByYear.sum
    .ok (tc, { st with totalContributions := some tc }, true)

/-- The inner double loop of `Stats.lines_changed` (stats.py lines 529-544):
for every repository, fetch its contributor statistics via `query_rest`
(an exhausted retry yields the empty fallback, iterated as nothing), skip
non-dict entries, keep entries whose author login equals the username, and
sum weekly additions and deletions. -/
def linesChangedCompute (username : String) (rest : Option String → Nat → RestResp)
    (repos : List (Option String)) : Nat × Nat :=
  repos.foldl
    (fun acc repo =>
      ((queryRest (rest repo)).result.getD []).foldl
        (fun acc ao =>
          match ao with
          | .junk => acc
          | .entry login weeks =>
            if login ≠ username then acc
            else weeks.foldl (fun acc w => (acc.1 + w.a, acc.2 + w.d)) acc)
        acc)
    (0, 0)

/-- `Stats.lines_changed` (stats.py lines 521-547): cached if set; otherwise
obtain the repository set (triggering `get()` if needed), run the REST
fetches and cache the (additions, deletions) pair. -/
def Stats.lines_changed (c : StatsCtx) (st : StatsFields) :
    Res ((Nat × Nat) × StatsFields × Bool) :=
  match st.linesChanged with
  | some v => .ok (v, st, false)
  | none =>
    match Stats.repositories c st with
    | .diverges => .diverges
    | .raises e => .raises e
    | .ok (repos, st', _) =>
      let lc := linesChangedCompute c.username c.env.rest repos
      .ok (lc, { st' with linesChanged := some lc }, true)

/-- Python `str.replace` on character lists, for a nonempty pattern: scan
left to right, replacing each non-overlapping occurrence of `pat` by `rep`.
(`replace_with_data` only ever uses patterns of the shape
"\x7b\x7b key \x7d\x7d", which are never empty.) -/
def replGo (pat rep : List Char) : List Char → List Char
  | [] => []
  | c :: cs =>
    if pat.isPrefixOf (c :: cs) then rep ++ replGo pat rep (cs.drop (pat.length - 1))
    else c :: replGo pat rep cs
termination_by s => s.length
decreasing_by
  · simp only [List.length_drop, List.length_cons]
    omega
  · simp

/-- Python `str.replace(pat, rep)`: with an empty pattern, `rep` is inserted
before every character and at the end; otherwise `replGo`. -/
def pyReplace (s pat rep : List Char) : List Char :=
  if pat = [] then rep ++ s.flatMap (fun c => c :: rep)
  else replGo pat rep s

/-- String-level `content.replace(pat, rep)`. -/
def pyStrReplace (content pat rep : String) : String :=
  ⟨pyReplace content.data pat.data rep.data⟩

/-- `replace_with_data` (gen.py lines 16-30): for every key/value pair of the
replacement map, replace every occurrence of "\x7b\x7b key \x7d\x7d" in the
content by the value. -/
def replace_with_data (data : List (String × String)) (content : String) : String :=
  data.foldl
    (fun content kv => pyStrReplace content ("\x7b\x7b " ++ kv.1 ++ " \x7d\x7d") kv.2)
    content

/-- `truthy` (gen.py lines 183-200) applied to the result of `os.getenv`:
None is neither a str, an int nor a bool, so it yields the default; a string
yields whether its stripped lowercase form is one of "true", "1", "yes",
"y". -/
def truthy (value : Option String) (dflt : Bool) : Bool :=
  match value with
  | some s => ["true", "1", "yes", "y"].contains (strLower (pyStrip s))
  | none => dflt

/-! ### Helper lemmas about the repository loop -/

theorem processRepo_seen (opts : Options) (st : StatsFields) (r : RepoNode)
    (h : r.nameWithOwner ∈ st.repositories.getD []) :
    processRepo opts st (some r) = .ok st := by
  simp [processRepo, h]

theorem processRepo_excluded (opts : Options) (ex : List String) (st : StatsFields) (r : RepoNode)
    (hex : opts.excluded_repos = some ex) (h : excludedRepo ex r.nameWithOwner = true) :
    processRepo opts st (some r) = .ok st := by
  by_cases hs : r.nameWithOwner ∈ st.repositories.getD []
  · simp [processRepo, hs]
  · simp [processRepo, hs, hex, h]

theorem processRepo_fresh (opts : Options) (ex : List String) (st st' : StatsFields)
    (r : RepoNode) (hex : opts.excluded_repos = some ex)
    (hns : r.nameWithOwner ∉ st.repositories.getD [])
    (hnex : excludedRepo ex r.nameWithOwner = false)
    (h : processRepo opts st (some r) = .ok st') :
    ∃ sg, r.stargazers = some sg
      ∧ st'.repositories = some (st.repositories.getD [] ++ [r.nameWithOwner])
      ∧ st'.stargazers = some (st.stargazers.getD 0 + sg)
      ∧ st'.forks = some (st.forks.getD 0 + r.forkCount) := by
  cases hsg : r.stargazers with
  | none => simp [processRepo, hex, hnex, hns, hsg] at h
  | some sg =>
    refine ⟨sg, rfl, ?_⟩
    cases hel : opts.excluded_langs with
    | none =>
      by_cases hl : r.languages = []
      · simp [processRepo, hex, hnex, hns, hsg, hel, hl] at h
        subst h
        exact ⟨rfl, rfl, rfl⟩
      · simp [processRepo, hex, hnex, hns, hsg, hel, hl] at h
    | some el =>
      simp [processRepo, hex, hnex, hns, hsg, hel] at h
      subst h
      exact ⟨rfl, rfl, rfl⟩

theorem processRepos_append (opts : Options) (st : StatsFields)
    (l l' : List (Option RepoNode)) :
    processRepos opts st (l ++ l') =
      match processRepos opts st l with
      | .error e => .error e
      | .ok st₁ => processRepos opts st₁ l' := by
  induction l generalizing st with
  | nil => simp [processRepos]
  | cons r rs ih =>
    simp only [List.cons_append, processRepos]
    cases processRepo opts st r with
    | error e => rfl
    | ok st₁ => exact ih st₁

/-- C1: a repository whose full name is already in the seen-repository set is
skipped entirely, so second and later occurrences of a name — whether from
the other paginated collection or from a later page — contribute nothing to
any running total; a first occurrence (name unseen and not excluded) records
the name and adds its stargazer and fork counts exactly once. -/
theorem repo_counted_once :
    (∀ (opts : Options) (st st₁ : StatsFields) (l l' : List (Option RepoNode)) (r : RepoNode),
      processRepos opts st l = .ok st₁ →
      r.nameWithOwner ∈ st₁.repositories.getD [] →
      processRepos opts st (l ++ some r :: l') = processRepos opts st (l ++ l'))
    ∧ (∀ (opts : Options) (ex : List String) (st st' : StatsFields) (r : RepoNode),
      opts.excluded_repos = some ex →
      r.nameWithOwner ∉ st.repositories.getD [] →
      excludedRepo ex r.nameWithOwner = false →
      processRepo opts st (some r) = .ok st' →
      ∃ sg, r.stargazers = some sg
        ∧ r.nameWithOwner ∈ st'.repositories.getD []
        ∧ st'.stargazers = some (st.stargazers.getD 0 + sg)
        ∧ st'.forks = some (st.forks.getD 0 + r.forkCount)) := by
  constructor
  · intro opts st st₁ l l' r h hseen
    rw [processRepos_append, processRepos_append, h]
    simp [processRepos, processRepo_seen opts st₁ r hseen]
  · intro opts ex st st' r hex hns hnex h
    obtain ⟨sg, hsg, hrep, hst, hfk⟩ := processRepo_fresh opts ex st st' r hex hns hnex h
    exact ⟨sg, hsg, by rw [hrep]; simp, hst, hfk⟩

def wOpts : Options := { excluded_repos := some ["a/b"], excluded_langs := some ["Nix"] }

def wRepo : RepoNode := ⟨some "u/r", some 5, 2, []⟩

def wSt : StatsFields :=
  { initStats with
    stargazers := some 0,
    forks := some 0,
    languages := some [],
    repositories := some [] }

def wSt1 : StatsFields :=
  { wSt with repositories := some [some "u/r"], stargazers := some 5, forks := some 2 }

theorem repo_counted_once_witness :
    (processRepos wOpts wSt ([some wRepo] ++ some wRepo :: []) =
        processRepos wOpts wSt ([some wRepo] ++ []))
    ∧ ∃ sg, wRepo.stargazers = some sg
        ∧ wRepo.nameWithOwner ∈ wSt1.repositories.getD []
        ∧ wSt1.stargazers = some (wSt.stargazers.getD 0 + sg)
        ∧ wSt1.forks = some (wSt.forks.getD 0 + wRepo.forkCount) :=
  ⟨repo_counted_once.1 wOpts wSt wSt1 [some wRepo] [] wRepo (by rfl) (by decide),
   repo_counted_once.2 wOpts ["a/b"] wSt wSt1 wRepo rfl (by decide) (by decide) (by rfl)⟩

/-! ### Helper lemmas about the language map -/

theorem lookup_append (l₁ l₂ : LangMap) (k : String) :
    (l₁ ++ l₂).lookup k =
      match l₁.lookup k with
      | some v => some v
      | none => l₂.lookup k := by
  induction l₁ with
  | nil => simp [List.lookup]
  | cons kv t ih =>
    obtain ⟨a, b⟩ := kv
    simp only [List.cons_append, List.lookup]
    cases k == a with
    | true => rfl
    | false => exact ih

theorem updateEntry_lookup_ne (m : LangMap) (k j : String) (f : LangInfo → LangInfo)
    (h : ¬ j = k) : (updateEntry m k f).lookup j = m.lookup j := by
  induction m with
  | nil => rfl
  | cons kv t ih =>
    obtain ⟨a, b⟩ := kv
    by_cases hk : a = k
    · rw [show updateEntry ((a, b) :: t) k f = (a, f b) :: updateEntry t k f from by
        simp [updateEntry, hk]]
      rw [List.lookup_cons, List.lookup_cons]
      have hj : (j == a) = false := beq_eq_false_iff_ne.mpr (fun he => h (he.trans hk))
      rw [hj]
      exact ih
    · rw [show updateEntry ((a, b) :: t) k f = (a, b) :: updateEntry t k f from by
        simp [updateEntry, hk]]
      rw [List.lookup_cons, List.lookup_cons]
      cases j == a with
      | true => rfl
      | false => exact ih

theorem processLangEdge_skip (el : List String) (m : LangMap) (e : LangEdge)
    (h : (el.map strLower).contains (strLower (e.name.getD "Other")) = true) :
    processLangEdge el m e = m := by
  simp only [processLangEdge]
  rw [if_pos h]

theorem processLangEdge_excluded_lookup (el : List String) (m : LangMap) (e : LangEdge)
    (lname : String) (h : (el.map strLower).contains (strLower lname) = true) :
    (processLangEdge el m e).lookup lname = m.lookup lname := by
  by_cases hc : (el.map strLower).contains (strLower (e.name.getD "Other")) = true
  · rw [processLangEdge_skip el m e hc]
  · have hne : ¬ lname = e.name.getD "Other" := by
      intro he
      rw [← he] at hc
      exact hc h
    simp only [processLangEdge]
    rw [if_neg hc]
    cases hl : m.lookup (e.name.getD "Other") with
    | some v =>
      exact updateEntry_lookup_ne m (e.name.getD "Other") lname _ hne
    | none =>
      rw [lookup_append]
      cases hj : m.lookup lname with
      | some v => rfl
      | none =>
        simp [List.lookup, beq_eq_false_iff_ne.mpr hne]

theorem foldl_langEdges_excluded_lookup (el : List String) (lname : String)
    (h : (el.map strLower).contains (strLower lname) = true) :
    ∀ (edges : List LangEdge) (m : LangMap),
      (edges.foldl (processLangEdge el) m).lookup lname = m.lookup lname := by
  intro edges
  induction edges with
  | nil => intro m; rfl
  | cons e t ih =>
    intro m
    rw [List.foldl_cons, ih (processLangEdge el m e),
      processLangEdge_excluded_lookup el m e lname h]

/-- C2: a repository whose full name is in the excluded set is skipped before
any total, the repository set or the language map is touched, by exact
(case-sensitive) string comparison — a name that only matches an excluded
entry up to case is still counted; and a language whose lowercased name is
among the lowercased excluded languages is never created or incremented in
the language map by any processed repository. -/
theorem exclusion_rules :
    (∀ (opts : Options) (ex : List String) (st : StatsFields) (r : RepoNode),
      opts.excluded_repos = some ex →
      excludedRepo ex r.nameWithOwner = true →
      processRepo opts st (some r) = .ok st)
    ∧ (∀ (opts : Options) (ex : List String) (st st' : StatsFields) (r : RepoNode) (n : String),
      opts.excluded_repos = some ex →
      r.nameWithOwner = some n →
      ex.contains n = false →
      (ex.map strLower).contains (strLower n) = true →
      some n ∉ st.repositories.getD [] →
      processRepo opts st (some r) = .ok st' →
      some n ∈ st'.repositories.getD [])
    ∧ (∀ (el : List String) (m : LangMap) (e : LangEdge),
      (el.map strLower).contains (strLower (e.name.getD "Other")) = true →
      processLangEdge el m e = m)
    ∧ (∀ (opts : Options) (el : List String) (st st' : StatsFields) (r : RepoNode)
        (lname : String),
      opts.excluded_langs = some el →
      (el.map strLower).contains (strLower lname) = true →
      processRepo opts st (some r) = .ok st' →
      (st'.languages.getD []).lookup lname = (st.languages.getD []).lookup lname) := by
  refine ⟨?_, ?_, ?_, ?_⟩
  · intro opts ex st r hex h
    exact processRepo_excluded opts ex st r hex h
  · intro opts ex st st' r n hex hn hcontains _ hns h
    have hnex : excludedRepo ex r.nameWithOwner = false := by
      rw [hn]
      simpa [excludedRepo] using hcontains
    have hns' : r.nameWithOwner ∉ st.repositories.getD [] := by rw [hn]; exact hns
    obtain ⟨sg, _, hrep, _, _⟩ := processRepo_fresh opts ex st st' r hex hns' hnex h
    rw [hrep, hn]
    simp
  · intro el m e h
    exact processLangEdge_skip el m e h
  · intro opts el st st' r lname hel h hproc
    by_cases hs : r.nameWithOwner ∈ st.repositories.getD []
    · rw [processRepo_seen opts st r hs] at hproc
      cases hproc
      rfl
    · obtain ⟨ex, hex⟩ : ∃ ex, opts.excluded_repos = some ex := by
        cases hox : opts.excluded_repos with
        | none =>
          exfalso
          simp [processRepo, hs, hox] at hproc
        | some ex => exact ⟨ex, rfl⟩
      by_cases hexc : excludedRepo ex r.nameWithOwner = true
      · rw [processRepo_excluded opts ex st r hex hexc] at hproc
        cases hproc
        rfl
      · cases hsg : r.stargazers with
        | none =>
          exfalso
          simp [processRepo, hs, hex, hexc, hsg] at hproc
        | some sg =>
          simp [processRepo, hs, hex, hexc, hsg, hel] at hproc
          subst hproc
          simp only [Option.getD_some]
          exact foldl_langEdges_excluded_lookup el lname h r.languages _

def wRepo2 : RepoNode :=
  ⟨some "u/r", some 5, 2, [⟨10, some "Python", some "#00f"⟩, ⟨3, some "nix", none⟩]⟩

def wRepoAB : RepoNode := ⟨some "A/B", some 1, 1, []⟩

def wStAB : StatsFields :=
  { wSt with repositories := some [some "A/B"], stargazers := some 1, forks := some 1 }

def wStL : StatsFields :=
  { wSt with
    repositories := some [some "u/r"],
    stargazers := some 5,
    forks := some 2,
    languages := some [("Python", ⟨10, 1, some "#00f", none⟩)] }

theorem exclusion_rules_witness :
    (processRepo wOpts wSt (some ⟨some "a/b", some 9, 9, []⟩) = .ok wSt)
    ∧ (some "A/B" ∈ wStAB.repositories.getD [])
    ∧ (processLangEdge ["Nix"] [] ⟨3, some "nix", none⟩ = [])
    ∧ ((wStL.languages.getD []).lookup "NIX" = (wSt.languages.getD []).lookup "NIX") :=
  ⟨exclusion_rules.1 wOpts ["a/b"] wSt ⟨some "a/b", some 9, 9, []⟩ rfl (by decide),
   exclusion_rules.2.1 wOpts ["a/b"] wSt wStAB wRepoAB "A/B" rfl rfl (by decide) (by decide)
     (by decide) (by rfl),
   exclusion_rules.2.2.1 ["Nix"] [] ⟨3, some "nix", none⟩ (by decide),
   exclusion_rules.2.2.2 wOpts ["Nix"] wSt wStL wRepo2 "NIX" rfl (by decide) (by rfl)⟩

/-! ### The language-percentage pass -/

theorem sum_hundred_div (T : ℚ) (l : List Nat) :
    (l.map (fun s : Nat => 100 * ((s : ℚ) / T))).sum = 100 * ((l.sum : ℚ) / T) := by
  induction l with
  | nil => simp
  | cons a t ih =>
    simp only [List.map_cons, List.sum_cons, ih]
    push_cast
    ring

/-- C3: after the final pass, every language entry's "prop" field equals 100
times its byte size divided by the total byte size over all recorded
languages, and the props sum to exactly 100 (in exact rational arithmetic)
whenever at least one recorded language has nonzero size. -/
theorem languages_percentage_sum (m : LangMap) (h : 0 < langsTotal m) :
    ∃ m', computeProps m = .ok m'
      ∧ (∀ kv ∈ m', kv.2.prop = some (100 * ((kv.2.size : ℚ) / (langsTotal m : ℚ))))
      ∧ (m'.map (fun kv => kv.2.prop.getD 0)).sum = 100 := by
  have hm : ¬ m = [] := by
    intro he
    rw [he] at h
    simp [langsTotal] at h
  have hT : ¬ langsTotal m = 0 := by omega
  refine ⟨m.map (fun kv =>
      (kv.1, { kv.2 with prop := some (100 * ((kv.2.size : ℚ) / (langsTotal m : ℚ))) })),
    ?_, ?_, ?_⟩
  · simp [computeProps, hm, hT]
  · intro kv hkv
    obtain ⟨kv₀, _, rfl⟩ := List.mem_map.mp hkv
    rfl
  · have h2 : (m.map (fun kv =>
        (kv.1, { kv.2 with prop := some (100 * ((kv.2.size : ℚ) / (langsTotal m : ℚ))) }))).map
          (fun kv => kv.2.prop.getD 0)
        = (m.map (fun kv => kv.2.size)).map
            (fun s : Nat => 100 * ((s : ℚ) / (langsTotal m : ℚ))) := by
      rw [List.map_map, List.map_map]
      rfl
    rw [h2, sum_hundred_div]
    have h4 : (m.map (fun kv => kv.2.size)).sum = langsTotal m := rfl
    rw [h4, div_self (Nat.cast_ne_zero.mpr hT), mul_one]

def wLangs : LangMap := [("Python", ⟨100, 1, none, none⟩), ("Go", ⟨300, 2, some "#0ff", none⟩)]

theorem languages_percentage_sum_witness :
    0 < langsTotal wLangs
    ∧ ∃ m', computeProps wLangs = .ok m'
        ∧ (∀ kv ∈ m', kv.2.prop = some (100 * ((kv.2.size : ℚ) / (langsTotal wLangs : ℚ))))
        ∧ (m'.map (fun kv => kv.2.prop.getD 0)).sum = 100 :=
  ⟨by decide, languages_percentage_sum wLangs (by decide)⟩

/-- C8: when the GraphQL transport fails on every call, each overview
response is the empty dict; `get()` then breaks after its first iteration
(the remaining oracle entries are never consulted) and succeeds, leaving
zero stargazers and forks, an empty language map and repository set, and
the "No Name" fallback display name. -/
theorem graphql_failure_degrades (opts : Options) (st0 : StatsFields)
    (rest : List OverviewResp) :
    statsGet opts st0 (none :: rest) =
      .ok { st0 with
            name := some "No Name",
            followers := some 0, following := some 0, sponsoring := some 0,
            starredRepositories := some 0,
            stargazers := some 0, forks := some 0,
            languages := some [], repositories := some [] } := by
  simp [statsGet, getLoop, getStep, setScalars, ownedColl, contribColl, workingRepos,
    emptyViewer, emptyColl, RepoCollection.hasNext, processRepos, computeProps]

/-! ### The REST retry loop -/

theorem queryRestAux_all_fail (oracle : Nat → RestResp) :
    ∀ (fuel i slp : Nat),
      (∀ j, j < fuel → oracle (i + j) = .status202 ∨ oracle (i + j) = .transportError) →
      queryRestAux oracle fuel i slp = ⟨none, i + fuel, slp + 2 * fuel, true⟩ := by
  intro fuel
  induction fuel with
  | zero => intro i slp _; simp [queryRestAux]
  | succ fuel ih =>
    intro i slp hf
    have h0 := hf 0 (Nat.succ_pos fuel)
    rw [Nat.add_zero] at h0
    have hrec : queryRestAux oracle fuel (i + 1) (slp + 2) =
        ⟨none, (i + 1) + fuel, (slp + 2) + 2 * fuel, true⟩ := by
      refine ih (i + 1) (slp + 2) (fun j hj => ?_)
      have e3 : i + 1 + j = i + (j + 1) := by omega
      rw [e3]
      exact hf (j + 1) (by omega)
    have e1 : i + (fuel + 1) = (i + 1) + fuel := by omega
    have e2 : slp + 2 * (fuel + 1) = (slp + 2) + 2 * fuel := by omega
    rw [e1, e2]
    rcases h0 with h0 | h0
    all_goals
      simp only [queryRestAux, h0]
      exact hrec

theorem queryRestAux_first_payload (oracle : Nat → RestResp) :
    ∀ (fuel i slp k : Nat) (b : List AuthorObj),
      k < fuel → oracle (i + k) = .payload b →
      (∀ j, j < k → ∀ b', oracle (i + j) ≠ .payload b') →
      (queryRestAux oracle fuel i slp).result = some b ∧
        (queryRestAux oracle fuel i slp).attempts = i + k + 1 := by
  intro fuel
  induction fuel with
  | zero => intro i slp k b hk _ _; exact absurd hk (Nat.not_lt_zero k)
  | succ fuel ih =>
    intro i slp k b hk hp hbefore
    cases k with
    | zero =>
      rw [Nat.add_zero] at hp
      simp [queryRestAux, hp]
    | succ k' =>
      have h0 : ∀ b', ¬ oracle i = .payload b' := fun b' hb =>
        hbefore 0 (Nat.succ_pos k') b' (by rw [Nat.add_zero]; exact hb)
      have hp' : oracle (i + 1 + k') = .payload b := by
        rw [show i + 1 + k' = i + (k' + 1) from by omega]
        exact hp
      have hb' : ∀ j, j < k' → ∀ b', oracle (i + 1 + j) ≠ .payload b' := fun j hj b' hpj =>
        hbefore (j + 1) (by omega) b' (by rw [show i + (j + 1) = i + 1 + j from by omega]; exact hpj)
      cases ho : oracle i with
      | payload b' => exact absurd ho (h0 b')
      | status202 =>
        simp only [queryRestAux, ho]
        have h := ih (i + 1) (slp + 2) k' b (by omega) hp' hb'
        exact ⟨h.1, by rw [h.2]; omega⟩
      | transportError =>
        simp only [queryRestAux, ho]
        have h := ih (i + 1) (slp + 2) k' b (by omega) hp' hb'
        exact ⟨h.1, by rw [h.2]; omega⟩
      | jsonNull =>
        simp only [queryRestAux, ho]
        have h := ih (i + 1) slp k' b (by omega) hp' hb'
        exact ⟨h.1, by rw [h.2]; omega⟩

/-- C4: `query_rest` returns the first payload parsed from a non-202 response
(earlier attempts may be 202s, transport errors or null bodies), using
attempt k+1 when the first payload arrives at index k; and when every one of
its attempts yields HTTP 202 or a transport error it makes exactly 60
attempts, sleeps 2 time-units after each of them, logs the incomplete-data
warning and returns the empty-dict fallback. -/
theorem query_rest_retry :
    (∀ (oracle : Nat → RestResp) (k : Nat) (b : List AuthorObj),
      k < 60 → oracle k = .payload b →
      (∀ j, j < k → ∀ b', oracle j ≠ .payload b') →
      (queryRest oracle).result = some b ∧ (queryRest oracle).attempts = k + 1)
    ∧ (∀ oracle : Nat → RestResp,
      (∀ j, j < 60 → oracle j = .status202 ∨ oracle j = .transportError) →
      queryRest oracle = ⟨none, 60, 120, true⟩) := by
  constructor
  · intro oracle k b hk hp hb
    have h := queryRestAux_first_payload oracle 60 0 0 k b hk
      (by rw [Nat.zero_add]; exact hp)
      (fun j hj b' hpj => hb j hj b' (by rw [Nat.zero_add] at hpj; exact hpj))
    refine ⟨h.1, ?_⟩
    rw [show queryRest oracle = queryRestAux oracle 60 0 0 from rfl, h.2]
    omega
  · intro oracle h
    exact queryRestAux_all_fail oracle 60 0 0 (fun j hj => by rw [Nat.zero_add]; exact h j hj)

def wOracle : Nat → RestResp := fun i => if i < 2 then .status202 else .payload []

def wOracle2 : Nat → RestResp := fun _ => .status202

theorem query_rest_retry_witness :
    ((queryRest wOracle).result = some [] ∧ (queryRest wOracle).attempts = 2 + 1)
    ∧ queryRest wOracle2 = ⟨none, 60, 120, true⟩ :=
  ⟨query_rest_retry.1 wOracle 2 [] (by omega) rfl
      (fun j hj b' hpj => by
        have hj2 : wOracle j = .status202 := by
          unfold wOracle
          rw [if_pos hj]
        rw [hj2] at hpj
        exact RestResp.noConfusion hpj),
   query_rest_retry.2 wOracle2 (fun j hj => Or.inl rfl)⟩

/-! ### The pagination loop -/

/-- C6: once the loop breaks it has consumed a definite prefix of the
response stream (later responses are irrelevant); a step continues exactly
when either collection still reports a next page, in which case both cursors
are advanced independently by their own collection's endCursor; a response
whose collection reports no next page together with the other one breaks the
loop immediately; and a collection whose pageInfo omits the endCursor key
keeps the previous cursor. -/
theorem pagination_loop :
    (∀ (opts : Options) (st : GetState) (rs : List OverviewResp) (g : GetState),
      getLoop opts st rs = .ok g → ∀ rs', getLoop opts st (rs ++ rs') = .ok g)
    ∧ (∀ (opts : Options) (st : GetState) (r : OverviewResp) (p : GetState × Bool),
      getStep opts st r = .ok p →
      p.2 = ((ownedColl r).hasNext || (contribColl r).hasNext)
      ∧ (p.2 = true →
          p.1.nextOwned = updCursor (ownedColl r) st.nextOwned
          ∧ p.1.nextContrib = updCursor (contribColl r) st.nextContrib))
    ∧ (∀ (opts : Options) (st st' : GetState) (r : OverviewResp) (rs : List OverviewResp),
      getStep opts st r = .ok (st', false) → getLoop opts st (r :: rs) = .ok st')
    ∧ (∀ (opts : Options) (st st' : GetState) (r : OverviewResp) (rs : List OverviewResp),
      getStep opts st r = .ok (st', true) → getLoop opts st (r :: rs) = getLoop opts st' rs)
    ∧ (∀ (c : RepoCollection) (prev : Option String),
      (c.pageInfo = none ∨ ∃ pi, c.pageInfo = some pi ∧ pi.endCursor = none) →
      updCursor c prev = prev) := by
  refine ⟨?_, ?_, ?_, ?_, ?_⟩
  · intro opts st rs
    induction rs generalizing st with
    | nil => intro g h; simp [getLoop] at h
    | cons r rs ih =>
      intro g h rs'
      rw [List.cons_append]
      simp only [getLoop] at h ⊢
      cases hstep : getStep opts st r with
      | error e => rw [hstep] at h; simp at h
      | ok p =>
        rw [hstep] at h
        obtain ⟨st', c⟩ := p
        cases c with
        | true => exact ih st' g h rs'
        | false => exact h
  · intro opts st r p h
    simp only [getStep] at h
    split at h
    · simp at h
    · split at h
      case isTrue hcond =>
        cases h
        exact ⟨hcond.symm, fun _ => ⟨rfl, rfl⟩⟩
      case isFalse hcond =>
        cases h
        refine ⟨((Bool.not_eq_true _).mp hcond).symm, fun habs => absurd habs (by simp)⟩
  · intro opts st st' r rs h
    simp only [getLoop, h]
  · intro opts st st' r rs h
    simp only [getLoop, h]
  · intro c prev h
    rcases h with h | ⟨pi, hpi, hec⟩
    · simp [updCursor, h]
    · simp [updCursor, hpi, hec]

def wFieldsEmpty : StatsFields :=
  { wSt with
    name := some "No Name",
    followers := some 0,
    following := some 0,
    sponsoring := some 0,
    starredRepositories := some 0 }

def wG : GetState := ⟨wSt, none, none⟩

def wGafter : GetState := ⟨wFieldsEmpty, none, none⟩

def wRespNext : OverviewResp :=
  some { emptyViewer with repositories := some ⟨some ⟨some true, some (some "cur1")⟩, []⟩ }

def wGnext : GetState := ⟨wFieldsEmpty, some "cur1", none⟩

theorem pagination_loop_witness :
    (getLoop wOpts wG ([none] ++ [none]) = .ok wGafter)
    ∧ ((wGnext, true).2 = ((ownedColl wRespNext).hasNext || (contribColl wRespNext).hasNext)
      ∧ ((wGnext, true).2 = true →
          (wGnext, true).1.nextOwned = updCursor (ownedColl wRespNext) wG.nextOwned
          ∧ (wGnext, true).1.nextContrib = updCursor (contribColl wRespNext) wG.nextContrib))
    ∧ (getLoop wOpts wG (none :: []) = .ok wGafter)
    ∧ (getLoop wOpts wG (wRespNext :: []) = getLoop wOpts wGnext [])
    ∧ (updCursor emptyColl (some "prev") = some "prev") :=
  ⟨pagination_loop.1 wOpts wG [none] wGafter (by rfl) [none],
   pagination_loop.2.1 wOpts wG wRespNext (wGnext, true) (by rfl),
   pagination_loop.2.2.1 wOpts wG wGafter none [] (by rfl),
   pagination_loop.2.2.2.1 wOpts wG wGnext wRespNext [] (by rfl),
   pagination_loop.2.2.2.2 emptyColl (some "prev") (Or.inl rfl)⟩

/-! ### The truthy environment flag -/

/-- C10 as stated is refuted by the input " true ": that string is not among
the recognized truthy values even case-insensitively (no lowercased entry
equals its lowercased form), yet `truthy` yields True because the source
strips whitespace before comparing, so contributed-to repositories are
omitted rather than included. -/
theorem truthy_whitespace_cex :
    ((["true", "1", "yes", "y"].map strLower).contains (strLower " true ") = false)
    ∧ truthy (some " true ") true = true :=
  ⟨rfl, rfl⟩

/-- C10 (amended): when the variable is unset, `truthy` yields its supplied
default True and only owned repositories are aggregated; a set string whose
whitespace-stripped, lowercased form is outside the recognized truthy values
yields False, in which case the contributed-to nodes are appended to the
working repository list. -/
theorem truthy_default_and_fork_gate :
    (truthy none true = true)
    ∧ (∀ (opts : Options) (owned contrib : RepoCollection), opts.exclude_forked_repos = true →
        workingRepos opts owned contrib = owned.nodes)
    ∧ (∀ (s : String) (d : Bool),
        (["true", "1", "yes", "y"].contains (strLower (pyStrip s))) = false →
        truthy (some s) d = false)
    ∧ (∀ (opts : Options) (owned contrib : RepoCollection), opts.exclude_forked_repos = false →
        workingRepos opts owned contrib = owned.nodes ++ contrib.nodes) := by
  refine ⟨rfl, ?_, ?_, ?_⟩
  · intro opts o c h
    simp [workingRepos, h]
  · intro s d h
    show ["true", "1", "yes", "y"].contains (strLower (pyStrip s)) = false
    exact h
  · intro opts o c h
    simp [workingRepos, h]

theorem truthy_default_and_fork_gate_witness :
    (workingRepos { wOpts with exclude_forked_repos := true } emptyColl emptyColl
        = emptyColl.nodes)
    ∧ truthy (some "maybe") true = false
    ∧ (workingRepos wOpts emptyColl emptyColl = emptyColl.nodes ++ emptyColl.nodes) :=
  ⟨truthy_default_and_fork_gate.2.1 { wOpts with exclude_forked_repos := true }
      emptyColl emptyColl rfl,
   truthy_default_and_fork_gate.2.2.1 "maybe" true rfl,
   truthy_default_and_fork_gate.2.2.2 wOpts emptyColl emptyColl rfl⟩

/-! ### Occurrence lemmas for Python str.replace -/

theorem prefix_append_split {α : Type} (l a b : List α) (h : l <+: a ++ b) :
    l <+: a ∨ ∃ l₂, l = a ++ l₂ ∧ l₂ <+: b := by
  induction a generalizing l with
  | nil => exact Or.inr ⟨l, rfl, h⟩
  | cons x a' ih =>
    rw [List.cons_append] at h
    rcases List.prefix_cons_iff.mp h with rfl | ⟨t, rfl, ht⟩
    · exact Or.inl List.nil_prefix
    · rcases ih t ht with h1 | ⟨l₂, rfl, hl₂⟩
      · exact Or.inl (List.cons_prefix_cons.mpr ⟨rfl, h1⟩)
      · exact Or.inr ⟨l₂, rfl, hl₂⟩

theorem infix_append_split {α : Type} (l a b : List α) (h : l <:+: a ++ b) :
    l <:+: a ∨ l <:+: b ∨ ∃ l₁ l₂, l = l₁ ++ l₂ ∧ l₁ ≠ [] ∧ l₁ <:+ a ∧ l₂ <+: b := by
  induction a generalizing l with
  | nil => exact Or.inr (Or.inl h)
  | cons x a' ih =>
    rw [List.cons_append] at h
    rcases List.infix_cons_iff.mp h with hpre | hinf
    · rw [← List.cons_append] at hpre
      rcases prefix_append_split l (x :: a') b hpre with h1 | ⟨l₂, rfl, hl₂⟩
      · exact Or.inl h1.isInfix
      · by_cases hl2 : l₂ = []
        · subst hl2
          rw [List.append_nil]
          exact Or.inl (List.infix_refl (x :: a'))
        · exact Or.inr (Or.inr ⟨x :: a', l₂, rfl, by simp, List.suffix_refl _, hl₂⟩)
    · rcases ih l hinf with h1 | h1 | ⟨l₁, l₂, rfl, hne, hsuf, hpre2⟩
      · exact Or.inl (List.infix_cons h1)
      · exact Or.inr (Or.inl h1)
      · exact Or.inr (Or.inr ⟨l₁, l₂, rfl, hne, hsuf.trans (List.suffix_cons x a'), hpre2⟩)

theorem replGo_cons_pos (pat rep : List Char) (c : Char) (cs : List Char)
    (h : pat.isPrefixOf (c :: cs) = true) :
    replGo pat rep (c :: cs) = rep ++ replGo pat rep (cs.drop (pat.length - 1)) := by
  simp only [replGo]
  rw [if_pos h]

theorem replGo_cons_neg (pat rep : List Char) (c : Char) (cs : List Char)
    (h : ¬ pat.isPrefixOf (c :: cs) = true) :
    replGo pat rep (c :: cs) = c :: replGo pat rep cs := by
  simp only [replGo]
  rw [if_neg h]

/-- If the pattern occurs in the input, the scan fires at least once, so the
replacement text occurs in the output. -/
theorem replGo_reaches (pat rep : List Char) (hpat : ¬ pat = []) :
    ∀ s : List Char, pat <:+: s → rep <:+: replGo pat rep s := by
  intro s
  induction s using replGo.induct pat rep with
  | case1 =>
    intro h
    exact absurd (List.infix_nil.mp h) hpat
  | case2 c cs hpre ih =>
    intro _
    rw [replGo_cons_pos pat rep c cs hpre]
    exact (List.prefix_append rep _).isInfix
  | case3 c cs hpre ih =>
    intro h
    rw [replGo_cons_neg pat rep c cs hpre]
    rcases List.infix_cons_iff.mp h with h1 | h1
    · exact absurd (List.isPrefixOf_iff_prefix.mpr h1) hpre
    · exact List.infix_cons (ih h1)

/-- A prefix of the scan's output is a prefix of the untouched input unless it
reaches into an inserted replacement block, in which case it contains the
replacement's first character. -/
theorem replGo_prefix_carry (pat : List Char) (r₀ : Char) (rt : List Char) :
    ∀ s q : List Char, q <+: replGo pat (r₀ :: rt) s → q <+: s ∨ r₀ ∈ q := by
  intro s
  induction s using replGo.induct pat (r₀ :: rt) with
  | case1 =>
    intro q h
    rw [show replGo pat (r₀ :: rt) [] = [] from by simp only [replGo]] at h
    rw [List.prefix_nil.mp h]
    exact Or.inl List.nil_prefix
  | case2 c cs hpre ih =>
    intro q h
    rw [replGo_cons_pos pat (r₀ :: rt) c cs hpre, List.cons_append] at h
    rcases List.prefix_cons_iff.mp h with rfl | ⟨t, rfl, _⟩
    · exact Or.inl List.nil_prefix
    · exact Or.inr (List.mem_cons_self r₀ t)
  | case3 c cs hpre ih =>
    intro q h
    rw [replGo_cons_neg pat (r₀ :: rt) c cs hpre] at h
    rcases List.prefix_cons_iff.mp h with rfl | ⟨t, rfl, ht⟩
    · exact Or.inl List.nil_prefix
    · rcases ih t ht with h1 | h1
      · exact Or.inl (List.cons_prefix_cons.mpr ⟨rfl, h1⟩)
      · exact Or.inr (List.mem_cons_of_mem c h1)

/-- Core correctness of the replacement scan: when the pattern's first
character does not occur in the replacement and the replacement's first
character does not occur in the pattern, the output contains no occurrence
of the pattern at all. -/
theorem replGo_no_pattern (p₀ r₀ : Char) (pt rt : List Char)
    (hp : p₀ ∉ r₀ :: rt) (hr : r₀ ∉ p₀ :: pt) :
    ∀ s, ¬ ((p₀ :: pt) <:+: replGo (p₀ :: pt) (r₀ :: rt) s) := by
  intro s
  induction s using replGo.induct (p₀ :: pt) (r₀ :: rt) with
  | case1 =>
    intro h
    rw [show replGo (p₀ :: pt) (r₀ :: rt) [] = [] from by simp only [replGo]] at h
    exact List.cons_ne_nil p₀ pt (List.infix_nil.mp h)
  | case2 c cs hpre ih =>
    intro h
    rw [replGo_cons_pos _ _ _ _ hpre] at h
    rcases infix_append_split _ _ _ h with h1 | h1 | ⟨l₁, l₂, heq, hne, hsuf, _⟩
    · exact hp (h1.sublist.subset (List.mem_cons_self p₀ pt))
    · exact ih h1
    · cases l₁ with
      | nil => exact hne rfl
      | cons x l₁' =>
        rw [List.cons_append] at heq
        injection heq with h1 _
        have hmem : x ∈ r₀ :: rt := hsuf.sublist.subset (List.mem_cons_self x l₁')
        rw [← h1] at hmem
        exact hp hmem
  | case3 c cs hpre ih =>
    intro h
    rw [replGo_cons_neg _ _ _ _ hpre] at h
    rcases List.infix_cons_iff.mp h with h1 | h1
    · rcases List.prefix_cons_iff.mp h1 with habs | ⟨t, hteq, htpre⟩
      · exact List.cons_ne_nil p₀ pt habs
      · injection hteq with hc ht
        rw [← ht] at htpre
        rcases replGo_prefix_carry (p₀ :: pt) r₀ rt cs pt htpre with h2 | h2
        · exact hpre (List.isPrefixOf_iff_prefix.mpr (List.cons_prefix_cons.mpr ⟨hc, h2⟩))
        · exact hr (List.mem_cons_of_mem p₀ h2)
    · exact ih h1

theorem replace_with_data_name_ada (content : String) :
    (replace_with_data [("name", "Ada")] content).data =
      replGo "\x7b\x7b name \x7d\x7d".data "Ada".data content.data := by
  show (pyStrReplace content ("\x7b\x7b " ++ "name" ++ " \x7d\x7d") "Ada").data =
    replGo "\x7b\x7b name \x7d\x7d".data "Ada".data content.data
  show pyReplace content.data ("\x7b\x7b " ++ "name" ++ " \x7d\x7d").data "Ada".data =
    replGo "\x7b\x7b name \x7d\x7d".data "Ada".data content.data
  rw [show ("\x7b\x7b " ++ "name" ++ " \x7d\x7d").data = "\x7b\x7b name \x7d\x7d".data from rfl]
  rw [pyReplace, if_neg (by decide)]

/-- C9: substituting the map ("name" maps to "Ada") into any template replaces
every occurrence of the "\x7b\x7b name \x7d\x7d" placeholder: the output
contains "Ada" whenever the template contained the placeholder, and no
occurrence of the placeholder for the supplied key remains in the output. -/
theorem template_substitution (content : String) :
    ("\x7b\x7b name \x7d\x7d".data <:+: content.data →
      "Ada".data <:+: (replace_with_data [("name", "Ada")] content).data)
    ∧ ¬ ("\x7b\x7b name \x7d\x7d".data <:+: (replace_with_data [("name", "Ada")] content).data) := by
  rw [replace_with_data_name_ada]
  constructor
  · intro h
    exact replGo_reaches _ _ (by decide) content.data h
  · exact replGo_no_pattern '\x7b' 'A' "\x7b name \x7d\x7d".data "da".data
      (by decide) (by decide) content.data

theorem template_substitution_witness :
    ("\x7b\x7b name \x7d\x7d".data <:+: "Hi \x7b\x7b name \x7d\x7d!".data)
    ∧ ("Ada".data <:+: (replace_with_data [("name", "Ada")] "Hi \x7b\x7b name \x7d\x7d!").data)
    ∧ ¬ ("\x7b\x7b name \x7d\x7d".data <:+:
        (replace_with_data [("name", "Ada")] "Hi \x7b\x7b name \x7d\x7d!").data) :=
  ⟨by decide,
   (template_substitution "Hi \x7b\x7b name \x7d\x7d!").1 (by decide),
   (template_substitution "Hi \x7b\x7b name \x7d\x7d!").2⟩

/-! ### Laziness and memoization of the accessors -/

theorem lazyGetAcc_read {α : Type} (read : StatsFields → Option α) (c : StatsCtx)
    (st : StatsFields) (v : α) (st₁ : StatsFields) (f : Bool)
    (h : lazyGetAcc read c st = .ok (v, st₁, f)) : read st₁ = some v := by
  unfold lazyGetAcc at h
  cases hr : read st with
  | some v' =>
    simp only [hr] at h
    cases h
    exact hr
  | none =>
    simp only [hr] at h
    cases hsg : statsGet c.opts st c.env.overview with
    | diverges => simp only [hsg] at h; cases h
    | raises e => simp only [hsg] at h; cases h
    | ok st' =>
      simp only [hsg] at h
      cases hr' : read st' with
      | none => simp only [hr'] at h; cases h
      | some v' =>
        simp only [hr'] at h
        cases h
        exact hr'

theorem lazyGetAcc_cached {α : Type} (read : StatsFields → Option α) (c : StatsCtx)
    (st₁ : StatsFields) (v : α) (h : read st₁ = some v) :
    lazyGetAcc read c st₁ = .ok (v, st₁, false) := by
  unfold lazyGetAcc
  rw [h]

theorem lazyGetAcc_flag {α : Type} (read : StatsFields → Option α) (c : StatsCtx)
    (st : StatsFields) (v : α) (st₁ : StatsFields) (f : Bool)
    (hnone : read st = none) (h : lazyGetAcc read c st = .ok (v, st₁, f)) : f = true := by
  unfold lazyGetAcc at h
  simp only [hnone] at h
  cases hsg : statsGet c.opts st c.env.overview with
  | diverges => simp only [hsg] at h; cases h
  | raises e => simp only [hsg] at h; cases h
  | ok st' =>
    simp only [hsg] at h
    cases hr' : read st' with
    | none => simp only [hr'] at h; cases h
    | some v' => simp only [hr'] at h; cases h; rfl

theorem lazyAcc_spec {α : Type} (read : StatsFields → Option α) (c : StatsCtx)
    (st : StatsFields) (v : α) (st₁ : StatsFields) (f : Bool)
    (h : lazyGetAcc read c st = .ok (v, st₁, f)) :
    lazyGetAcc read c st₁ = .ok (v, st₁, false) ∧ (read st = none → f = true) :=
  ⟨lazyGetAcc_cached read c st₁ v (lazyGetAcc_read read c st v st₁ f h),
   fun hn => lazyGetAcc_flag read c st v st₁ f hn h⟩

/-- C7: every statistic field starts unset on a fresh object; for each
accessor, a successful access whose field was unset reports that it
triggered a fetch, and a second access after any successful access returns
the same value, leaves the state unchanged and triggers no fetch. -/
theorem stats_memoized :
    (initStats.name = none ∧ initStats.joined = none ∧ initStats.followers = none
      ∧ initStats.following = none ∧ initStats.sponsoring = none
      ∧ initStats.starredRepositories = none ∧ initStats.stargazers = none
      ∧ initStats.forks = none ∧ initStats.totalContributions = none
      ∧ initStats.languages = none ∧ initStats.repositories = none
      ∧ initStats.linesChanged = none)
    ∧ (∀ c st v st₁ f, Stats.name c st = .ok (v, st₁, f) →
        Stats.name c st₁ = .ok (v, st₁, false) ∧ (st.name = none → f = true))
    ∧ (∀ c st v st₁ f, Stats.joined c st = .ok (v, st₁, f) →
        Stats.joined c st₁ = .ok (v, st₁, false) ∧ (st.joined = none → f = true))
    ∧ (∀ c st v st₁ f, Stats.followers c st = .ok (v, st₁, f) →
        Stats.followers c st₁ = .ok (v, st₁, false) ∧ (st.followers = none → f = true))
    ∧ (∀ c st v st₁ f, Stats.following c st = .ok (v, st₁, f) →
        Stats.following c st₁ = .ok (v, st₁, false) ∧ (st.following = none → f = true))
    ∧ (∀ c st v st₁ f, Stats.sponsoring c st = .ok (v, st₁, f) →
        Stats.sponsoring c st₁ = .ok (v, st₁, false) ∧ (st.sponsoring = none → f = true))
    ∧ (∀ c st v st₁ f, Stats.starred_repositories c st = .ok (v, st₁, f) →
        Stats.starred_repositories c st₁ = .ok (v, st₁, false)
        ∧ (st.starredRepositories = none → f = true))
    ∧ (∀ c st v st₁ f, Stats.stargazers c st = .ok (v, st₁, f) →
        Stats.stargazers c st₁ = .ok (v, st₁, false) ∧ (st.stargazers = none → f = true))
    ∧ (∀ c st v st₁ f, Stats.forks c st = .ok (v, st₁, f) →
        Stats.forks c st₁ = .ok (v, st₁, false) ∧ (st.forks = none → f = true))
    ∧ (∀ c st v st₁ f, Stats.languages c st = .ok (v, st₁, f) →
        Stats.languages c st₁ = .ok (v, st₁, false) ∧ (st.languages = none → f = true))
    ∧ (∀ c st v st₁ f, Stats.repositories c st = .ok (v, st₁, f) →
        Stats.repositories c st₁ = .ok (v, st₁, false) ∧ (st.repositories = none → f = true))
    ∧ (∀ c st v st₁ f, Stats.total_contributions c st = .ok (v, st₁, f) →
        Stats.total_contributions c st₁ = .ok (v, st₁, false)
        ∧ (st.totalContributions = none → f = true))
    ∧ (∀ c st v st₁ f, Stats.lines_changed c st = .ok (v, st₁, f) →
        Stats.lines_changed c st₁ = .ok (v, st₁, false)
        ∧ (st.linesChanged = none → f = true)) := by
  refine ⟨⟨rfl, rfl, rfl, rfl, rfl, rfl, rfl, rfl, rfl, rfl, rfl, rfl⟩,
    ?_, ?_, ?_, ?_, ?_, ?_, ?_, ?_, ?_, ?_, ?_, ?_⟩
  · intro c st v st₁ f h
    exact lazyAcc_spec StatsFields.name c st v st₁ f h
  · intro c st v st₁ f h
    exact lazyAcc_spec StatsFields.joined c st v st₁ f h
  · intro c st v st₁ f h
    exact lazyAcc_spec StatsFields.followers c st v st₁ f h
  · intro c st v st₁ f h
    exact lazyAcc_spec StatsFields.following c st v st₁ f h
  · intro c st v st₁ f h
    exact lazyAcc_spec StatsFields.sponsoring c st v st₁ f h
  · intro c st v st₁ f h
    exact lazyAcc_spec StatsFields.starredRepositories c st v st₁ f h
  · intro c st v st₁ f h
    exact lazyAcc_spec StatsFields.stargazers c st v st₁ f h
  · intro c st v st₁ f h
    exact lazyAcc_spec StatsFields.forks c st v st₁ f h
  · intro c st v st₁ f h
    exact lazyAcc_spec StatsFields.languages c st v st₁ f h
  · intro c st v st₁ f h
    exact lazyAcc_spec StatsFields.repositories c st v st₁ f h
  · intro c st v st₁ f h
    unfold Stats.total_contributions at h
    have key : st₁.totalContributions = some v ∧ (st.totalContributions = none → f = true) := by
      cases ht : st.totalContributions with
      | some v' =>
        simp only [ht] at h
        cases h
        exact ⟨ht, fun hn => Option.noConfusion hn⟩
      | none =>
        simp only [ht] at h
        cases h
        exact ⟨rfl, fun _ => rfl⟩
    refine ⟨?_, key.2⟩
    unfold Stats.total_contributions
    rw [key.1]
  · intro c st v st₁ f h
    unfold Stats.lines_changed at h
    have key : st₁.linesChanged = some v ∧ (st.linesChanged = none → f = true) := by
      cases ht : st.linesChanged with
      | some v' =>
        simp only [ht] at h
        cases h
        exact ⟨ht, fun hn => Option.noConfusion hn⟩
      | none =>
        simp only [ht] at h
        cases hrep : Stats.repositories c st with
        | diverges => simp only [hrep] at h; cases h
        | raises e => simp only [hrep] at h; cases h
        | ok p =>
          simp only [hrep] at h
          obtain ⟨repos, st'', fl⟩ := p
          cases h
          exact ⟨rfl, fun _ => rfl⟩
    refine ⟨?_, key.2⟩
    unfold Stats.lines_changed
    rw [key.1]

def wEnv : Env := ⟨[none], [], fun _ _ => .status202⟩

def wCtx : StatsCtx := ⟨"u", wOpts, wEnv⟩

def wStG : StatsFields :=
  { initStats with
    name := some "No Name",
    followers := some 0,
    following := some 0,
    sponsoring := some 0,
    starredRepositories := some 0,
    stargazers := some 0,
    forks := some 0,
    languages := some [],
    repositories := some [] }

theorem stats_memoized_witness :
    Stats.followers wCtx initStats = .ok (0, wStG, true)
    ∧ Stats.followers wCtx wStG = .ok (0, wStG, false) :=
  ⟨by rfl, (stats_memoized.2.2.2.1 wCtx initStats 0 wStG true (by rfl)).1⟩

/-! ### Error behaviour of the accessors -/

/-- All statistic fields that a successful `get()` is responsible for. -/
def FieldsReady (st : StatsFields) : Prop :=
  st.name.isSome ∧ st.followers.isSome ∧ st.following.isSome ∧ st.sponsoring.isSome
    ∧ st.starredRepositories.isSome ∧ st.stargazers.isSome ∧ st.forks.isSome
    ∧ st.languages.isSome ∧ st.repositories.isSome

theorem processRepo_preserves (opts : Options) (st : StatsFields) (r : Option RepoNode)
    (st' : StatsFields) (h : processRepo opts st r = .ok st') :
    st'.name = st.name ∧ st'.followers = st.followers ∧ st'.following = st.following
    ∧ st'.sponsoring = st.sponsoring ∧ st'.starredRepositories = st.starredRepositories
    ∧ (st.stargazers.isSome → st'.stargazers.isSome)
    ∧ (st.forks.isSome → st'.forks.isSome)
    ∧ (st.languages.isSome → st'.languages.isSome)
    ∧ (st.repositories.isSome → st'.repositories.isSome) := by
  cases r with
  | none =>
    cases h
    exact ⟨rfl, rfl, rfl, rfl, rfl, id, id, id, id⟩
  | some repo =>
    by_cases hs : repo.nameWithOwner ∈ st.repositories.getD []
    · rw [processRepo_seen opts st repo hs] at h
      cases h
      exact ⟨rfl, rfl, rfl, rfl, rfl, id, id, id, id⟩
    · cases hex : opts.excluded_repos with
      | none => simp [processRepo, hs, hex] at h
      | some ex =>
        by_cases hexc : excludedRepo ex repo.nameWithOwner = true
        · rw [processRepo_excluded opts ex st repo hex hexc] at h
          cases h
          exact ⟨rfl, rfl, rfl, rfl, rfl, id, id, id, id⟩
        · cases hsg : repo.stargazers with
          | none => simp [processRepo, hs, hex, hexc, hsg] at h
          | some sg =>
            cases hel : opts.excluded_langs with
            | none =>
              by_cases hl : repo.languages = []
              · simp [processRepo, hs, hex, hexc, hsg, hel, hl] at h
                subst h
                exact ⟨rfl, rfl, rfl, rfl, rfl, fun _ => rfl, fun _ => rfl, id, fun _ => rfl⟩
              · simp [processRepo, hs, hex, hexc, hsg, hel, hl] at h
            | some el =>
              simp [processRepo, hs, hex, hexc, hsg, hel] at h
              subst h
              exact ⟨rfl, rfl, rfl, rfl, rfl, fun _ => rfl, fun _ => rfl, fun _ => rfl,
                fun _ => rfl⟩

theorem processRepos_preserves (opts : Options) :
    ∀ (l : List (Option RepoNode)) (st st' : StatsFields),
      processRepos opts st l = .ok st' →
      st'.name = st.name ∧ st'.followers = st.followers ∧ st'.following = st.following
      ∧ st'.sponsoring = st.sponsoring ∧ st'.starredRepositories = st.starredRepositories
      ∧ (st.stargazers.isSome → st'.stargazers.isSome)
      ∧ (st.forks.isSome → st'.forks.isSome)
      ∧ (st.languages.isSome → st'.languages.isSome)
      ∧ (st.repositories.isSome → st'.repositories.isSome) := by
  intro l
  induction l with
  | nil =>
    intro st st' h
    cases h
    exact ⟨rfl, rfl, rfl, rfl, rfl, id, id, id, id⟩
  | cons r rs ih =>
    intro st st' h
    simp only [processRepos] at h
    cases hp : processRepo opts st r with
    | error e => rw [hp] at h; cases h
    | ok st₁ =>
      rw [hp] at h
      obtain ⟨a1, a2, a3, a4, a5, a6, a7, a8, a9⟩ := processRepo_preserves opts st r st₁ hp
      obtain ⟨b1, b2, b3, b4, b5, b6, b7, b8, b9⟩ := ih st₁ st' h
      exact ⟨b1.trans a1, b2.trans a2, b3.trans a3, b4.trans a4, b5.trans a5,
        fun x => b6 (a6 x), fun x => b7 (a7 x), fun x => b8 (a8 x), fun x => b9 (a9 x)⟩

theorem getStep_ready (opts : Options) (g : GetState) (r : OverviewResp) (p : GetState × Bool)
    (h : getStep opts g r = .ok p)
    (hagg : g.fields.stargazers.isSome ∧ g.fields.forks.isSome
      ∧ g.fields.languages.isSome ∧ g.fields.repositories.isSome) :
    FieldsReady p.1.fields := by
  simp only [getStep] at h
  cases hp : processRepos opts (setScalars (r.getD emptyViewer) g.fields)
      (workingRepos opts (ownedColl r) (contribColl r)) with
  | error e => rw [hp] at h; cases h
  | ok fields' =>
    simp only [hp] at h
    obtain ⟨a1, a2, a3, a4, a5, a6, a7, a8, a9⟩ := processRepos_preserves opts _ _ _ hp
    have hready : FieldsReady fields' := by
      refine ⟨?_, ?_, ?_, ?_, ?_, ?_, ?_, ?_, ?_⟩
      · rw [a1]; rfl
      · rw [a2]; rfl
      · rw [a3]; rfl
      · rw [a4]; rfl
      · rw [a5]; rfl
      · exact a6 hagg.1
      · exact a7 hagg.2.1
      · exact a8 hagg.2.2.1
      · exact a9 hagg.2.2.2
    by_cases hc : ((ownedColl r).hasNext || (contribColl r).hasNext) = true
    · rw [if_pos hc] at h
      cases h
      exact hready
    · rw [if_neg hc] at h
      cases h
      exact hready

theorem getLoop_ready (opts : Options) :
    ∀ (rs : List OverviewResp) (g gfin : GetState),
      getLoop opts g rs = .ok gfin →
      (g.fields.stargazers.isSome ∧ g.fields.forks.isSome
        ∧ g.fields.languages.isSome ∧ g.fields.repositories.isSome) →
      FieldsReady gfin.fields := by
  intro rs
  induction rs with
  | nil => intro g gfin h _; cases h
  | cons r rs ih =>
    intro g gfin h hagg
    simp only [getLoop] at h
    cases hstep : getStep opts g r with
    | error e => rw [hstep] at h; cases h
    | ok p =>
      rw [hstep] at h
      obtain ⟨st', cflag⟩ := p
      have hr := getStep_ready opts g r (st', cflag) hstep hagg
      cases cflag with
      | true =>
        exact ih st' gfin h ⟨hr.2.2.2.2.2.1, hr.2.2.2.2.2.2.1, hr.2.2.2.2.2.2.2.1,
          hr.2.2.2.2.2.2.2.2⟩
      | false =>
        cases h
        exact hr

theorem statsGet_ready (opts : Options) (st0 st' : StatsFields) (rs : List OverviewResp)
    (h : statsGet opts st0 rs = .ok st') : FieldsReady st' := by
  simp only [statsGet] at h
  split at h
  · cases h
  · cases h
  · rename_i g hg
    split at h
    · cases h
    · rename_i m hm
      cases h
      have hr := getLoop_ready opts rs _ g hg ⟨rfl, rfl, rfl, rfl⟩
      exact ⟨hr.1, hr.2.1, hr.2.2.1, hr.2.2.2.1, hr.2.2.2.2.1, hr.2.2.2.2.2.1,
        hr.2.2.2.2.2.2.1, rfl, hr.2.2.2.2.2.2.2.2⟩

/-- C5 as stated is refuted by the `joined` accessor on all-empty responses:
`get()` succeeds but leaves the join date unset (no createdAt was seen), and
the accessor's `assert self._joined is not None` raises an AssertionError
past the accessor instead of producing a default value. -/
theorem joined_raises_on_empty :
    Stats.joined wCtx initStats = .raises .assertionError := by rfl

theorem lazyGetAcc_ok_of_ready {α : Type} (read : StatsFields → Option α) (c : StatsCtx)
    (st' : StatsFields) (h : statsGet c.opts initStats c.env.overview = .ok st')
    (hinit : read initStats = none) (hr : (read st').isSome) :
    ∃ p, lazyGetAcc read c initStats = .ok p := by
  unfold lazyGetAcc
  simp only [hinit, h]
  cases hrs : read st' with
  | none => rw [hrs] at hr; simp at hr
  | some v => exact ⟨(v, st', true), rfl⟩

theorem lines_changed_ok (c : StatsCtx) (st : StatsFields) (repos : List (Option String))
    (st₁ : StatsFields) (fl : Bool) (hlc : st.linesChanged = none)
    (hrep : Stats.repositories c st = .ok (repos, st₁, fl)) :
    ∃ p, Stats.lines_changed c st = .ok p := by
  unfold Stats.lines_changed
  rw [hlc, hrep]
  exact ⟨_, rfl⟩

/-- C5 (amended): whenever the aggregation pass completes without raising and
has recorded a join date, no accessor raises: each returns a value (for the
`get()`-backed accessors, absent upstream fields have already surfaced as
defaults inside the completed aggregation; the contribution and line-change
accessors never raise in-model).  The unamended claim fails at `joined` on
all-empty responses, where the aggregation succeeds with no join date and
the accessor's assert raises. -/
theorem accessors_no_raise (c : StatsCtx) (st' : StatsFields)
    (h : statsGet c.opts initStats c.env.overview = .ok st')
    (hj : st'.joined.isSome) :
    (∃ p, Stats.name c initStats = .ok p)
    ∧ (∃ p, Stats.joined c initStats = .ok p)
    ∧ (∃ p, Stats.followers c initStats = .ok p)
    ∧ (∃ p, Stats.following c initStats = .ok p)
    ∧ (∃ p, Stats.sponsoring c initStats = .ok p)
    ∧ (∃ p, Stats.starred_repositories c initStats = .ok p)
    ∧ (∃ p, Stats.stargazers c initStats = .ok p)
    ∧ (∃ p, Stats.forks c initStats = .ok p)
    ∧ (∃ p, Stats.languages c initStats = .ok p)
    ∧ (∃ p, Stats.repositories c initStats = .ok p)
    ∧ (∃ p, Stats.total_contributions c initStats = .ok p)
    ∧ (∃ p, Stats.lines_changed c initStats = .ok p) := by
  have hready := statsGet_ready c.opts initStats st' c.env.overview h
  refine ⟨lazyGetAcc_ok_of_ready StatsFields.name c st' h rfl hready.1,
    lazyGetAcc_ok_of_ready StatsFields.joined c st' h rfl hj,
    lazyGetAcc_ok_of_ready StatsFields.followers c st' h rfl hready.2.1,
    lazyGetAcc_ok_of_ready StatsFields.following c st' h rfl hready.2.2.1,
    lazyGetAcc_ok_of_ready StatsFields.sponsoring c st' h rfl hready.2.2.2.1,
    lazyGetAcc_ok_of_ready StatsFields.starredRepositories c st' h rfl hready.2.2.2.2.1,
    lazyGetAcc_ok_of_ready StatsFields.stargazers c st' h rfl hready.2.2.2.2.2.1,
    lazyGetAcc_ok_of_ready StatsFields.forks c st' h rfl hready.2.2.2.2.2.2.1,
    lazyGetAcc_ok_of_ready StatsFields.languages c st' h rfl hready.2.2.2.2.2.2.2.1,
    lazyGetAcc_ok_of_ready StatsFields.repositories c st' h rfl hready.2.2.2.2.2.2.2.2,
    ⟨_, rfl⟩, ?_⟩
  obtain ⟨⟨repos, st₁, fl⟩, hrep⟩ :=
    lazyGetAcc_ok_of_ready StatsFields.repositories c st' h rfl hready.2.2.2.2.2.2.2.2
  exact lines_changed_ok c initStats repos st₁ fl rfl hrep

def jCtx : StatsCtx :=
  ⟨"u", wOpts,
    ⟨[some { emptyViewer with createdAt := some "2020-01-01T00:00:00Z" }], [],
      fun _ _ => .status202⟩⟩

def jSt : StatsFields :=
  { initStats with
    name := some "No Name",
    joined := some "2020-01-01T00:00:00Z",
    followers := some 0,
    following := some 0,
    sponsoring := some 0,
    starredRepositories := some 0,
    stargazers := some 0,
    forks := some 0,
    languages := some [],
    repositories := some [] }

theorem accessors_no_raise_witness :
    statsGet jCtx.opts initStats jCtx.env.overview = .ok jSt
    ∧ jSt.joined.isSome = true
    ∧ (∃ p, Stats.joined jCtx initStats = .ok p) :=
  ⟨by rfl, rfl, (accessors_no_raise jCtx jSt (by rfl) rfl).2.1⟩

end GHStats
